import Mathlib

/-!
Shallow embedding of the pbr semantic-version core
(src/pbr/pkgversion/semantic.py and src/pbr/pkgversion/metadata.py).

Python strings are modelled as `List Char` (abbreviated `Str`); character
classification functions (`str.isdigit`, `str.isalpha`, `str.lower`,
`str.strip`) are modelled on their ASCII fragment, which is the fragment
exercised by version strings and commit-log text.  Python `int(s)` is
modelled on non-negative digit-only strings (signs, whitespace and
underscore separators are outside the model).  Exceptions raised by the
Python code (`ValueError`, `TypeError`, `IndexError`, `KeyError`) are
modelled as `Except.error` with short fixed messages.
-/

abbrev Str := List Char

/-- ASCII decimal digit, the fragment of Python `str.isdigit` exercised here. -/
def isDigitChar (c : Char) : Bool := 48 ≤ c.toNat && c.toNat ≤ 57

/-- ASCII letter, the fragment of Python `str.isalpha` exercised here. -/
def isAlphaChar (c : Char) : Bool :=
  (97 ≤ c.toNat && c.toNat ≤ 122) || (65 ≤ c.toNat && c.toNat ≤ 90)

/-- Python `s.split(sep)` for a one-character separator: `"".split(".") = [""]`,
separators at the ends produce empty components. -/
def splitOnChar (sep : Char) : Str → List Str
  | [] => [[]]
  | c :: rest =>
    if c = sep then [] :: splitOnChar sep rest
    else
      match splitOnChar sep rest with
      | s :: ss => (c :: s) :: ss
      | [] => [[c]]

/-- Numeric value of a digit string (big-endian), the value Python `int`
computes on a digit-only string. -/
def charsToNat (s : Str) : Nat := s.foldl (fun acc c => acc * 10 + (c.toNat - 48)) 0

/-- Python `s.isdigit()` (ASCII fragment): non-empty and all digits. -/
def pyIsDigit (s : Str) : Bool := !s.isEmpty && s.all isDigitChar

/-- Python `int(s)` on the non-negative fragment: the value when `s` is a
non-empty digit string, `none` (a raised `ValueError`) otherwise. -/
def pyIntNat (s : Str) : Option Nat := if pyIsDigit s then some (charsToNat s) else none

/-- Fuelled decimal rendering used by `natChars`; writes the digits of `n`
most-significant first. -/
def natCharsGo : Nat → Nat → Str
  | 0, _ => []
  | fuel + 1, n =>
    if n < 10 then [Nat.digitChar n]
    else natCharsGo fuel (n / 10) ++ [Nat.digitChar (n % 10)]

/-- Python `str(n)` for a non-negative integer. -/
def natChars (n : Nat) : Str := natCharsGo (n + 1) n

/-- Python `s.startswith(p)`. -/
def startswith : Str → Str → Bool
  | _, [] => true
  | [], _ :: _ => false
  | c :: s, d :: p => c = d && startswith s p

/-- Python truthiness of an optional string: `None` and `""` are falsy. -/
def truthyStr : Option Str → Bool
  | none => false
  | some s => !s.isEmpty

/-- Python truthiness of an optional integer: `None` and `0` are falsy. -/
def truthyOptNat : Option Nat → Bool
  | none => false
  | some n => n ≠ 0

/-- Python `str.__lt__`: lexicographic comparison by code point. -/
def strLt : Str → Str → Bool
  | [], [] => false
  | [], _ :: _ => true
  | _ :: _, [] => false
  | c :: s, d :: t => if c.toNat < d.toNat then true else if d.toNat < c.toNat then false else strLt s t

/-- Is this `Except` value an error (a raised Python exception)? -/
def isErr : Except String α → Bool
  | .error _ => true
  | .ok _ => false

/-- Python comparison of `(major, minor, patch)` tuples: lexicographic. -/
def tupleLt : Nat × Nat × Nat → Nat × Nat × Nat → Bool
  | (a1, a2, a3), (b1, b2, b3) =>
    a1 < b1 || (a1 = b1 && (a2 < b2 || (a2 = b2 && a3 < b3)))

/-- The `SemanticVersion` value object of src/pbr/pkgversion/semantic.py.
Fields mirror `_major`, `_minor`, `_patch`, `_prerelease_type`,
`_prerelease`, `_dev_count`, `_githash`; the numeric fields are the
non-negative integers of the data model. -/
structure SemanticVersion where
  major : Nat
  minor : Nat
  patch : Nat
  prerelease_type : Option Str
  prerelease : Option Nat
  dev_count : Option Nat
  githash : Option Str
deriving DecidableEq, Repr

namespace SemanticVersion

/-- The field assignments performed by `SemanticVersion.__init__` (without the
validation raise): when `prerelease_type` is truthy and `prerelease` falsy,
`prerelease` is set to `0`. -/
def mkFields (major minor patch : Nat) (prerelease_type : Option Str)
    (prerelease : Option Nat) (dev_count : Option Nat) (githash : Option Str) :
    SemanticVersion :=
  ⟨major, minor, patch, prerelease_type,
    if truthyStr prerelease_type && !truthyOptNat prerelease then some 0 else prerelease,
    dev_count, githash⟩

/-- `SemanticVersion.__init__`: raises `ValueError` when both
`prerelease_type` and `dev_count` are supplied non-`None`. -/
def make (major : Nat) (minor : Nat := 0) (patch : Nat := 0)
    (prerelease_type : Option Str := none) (prerelease : Option Nat := none)
    (dev_count : Option Nat := none) (githash : Option Str := none) :
    Except String SemanticVersion :=
  if prerelease_type.isSome && dev_count.isSome then
    .error "invalid version: cannot have prerelease and dev strings"
  else
    .ok (mkFields major minor patch prerelease_type prerelease dev_count githash)

/-- The constructor post-condition: every object built by `__init__` has a
`prerelease` number whenever its `prerelease_type` is truthy, and never has
both a `prerelease_type` and a `dev_count`. -/
def wf (v : SemanticVersion) : Bool :=
  (!truthyStr v.prerelease_type || v.prerelease.isSome) &&
    !(v.prerelease_type.isSome && v.dev_count.isSome)

/-- `SemanticVersion.__lt__`.  The `TypeError`s raised for the documented
undefined orderings become `Except.error`.  The prerelease branch compares the
Python tuples `(prerelease_type, prerelease)` lexicographically: unequal type
strings decide by string order; equal type strings fall through to the
numbers, where comparing `None` with an integer is itself a `TypeError` and
`None` with `None` leaves the tuples equal. -/
def pyLt (a b : SemanticVersion) : Except String Bool :=
  if tupleLt (a.major, a.minor, a.patch) (b.major, b.minor, b.patch) then .ok true
  else if tupleLt (b.major, b.minor, b.patch) (a.major, a.minor, a.patch) then .ok false
  else if truthyStr a.prerelease_type then
    if truthyStr b.prerelease_type then
      let sa := a.prerelease_type.getD []
      let sb := b.prerelease_type.getD []
      if sa ≠ sb then .ok (strLt sa sb)
      else
        match a.prerelease, b.prerelease with
        | none, none => .ok false
        | some x, some y => .ok (decide (x < y))
        | _, _ => .error "TypeError: comparison of None and int"
    else if truthyOptNat b.dev_count then
      .error "ordering pre-release with dev builds is undefined"
    else .ok true
  else if truthyOptNat a.dev_count then
    if truthyOptNat b.dev_count then
      let da := a.dev_count.getD 0
      let db := b.dev_count.getD 0
      if da < db then .ok true
      else if db < da then .ok false
      else if a.githash = b.githash then .ok false
      else .error "same version with different hash has no defined order"
    else if truthyStr b.prerelease_type then
      .error "ordering pre-release with dev builds is undefined"
    else .ok true
  else .ok false

/-- `SemanticVersion.__gt__`, i.e. `not (self == other or self < other)`;
`__eq__` is structural so the short-circuit avoids `__lt__` on equal values. -/
def pyGt (a b : SemanticVersion) : Except String Bool :=
  if a = b then .ok false
  else
    match pyLt a b with
    | .error e => .error e
    | .ok l => .ok (!l)

/-- `SemanticVersion.brief_string`. -/
def brief_string (v : SemanticVersion) : Str :=
  natChars v.major ++ '.' :: natChars v.minor ++ '.' :: natChars v.patch

/-- `SemanticVersion.decrement` (the 9999 magic component comes from the
pbr-semver spec; truthiness of the numeric fields is non-zero-ness). -/
def decrement (v : SemanticVersion) : SemanticVersion :=
  let t : Nat × Nat × Nat :=
    if v.patch ≠ 0 then (v.major, v.minor, v.patch - 1)
    else if v.minor ≠ 0 then (v.major, v.minor - 1, 9999)
    else if v.major ≠ 0 then (v.major - 1, 9999, 9999)
    else (0, 9999, 9999)
  mkFields t.1 t.2.1 t.2.2 none none none none

/-- `SemanticVersion.increment`.  Python computes `self._prerelease + 1`, which
for a well-formed object (`wf`) is defined; `Option.map` mirrors that on the
well-formed domain.  The result is built through the constructor with no
`dev_count`/`githash` arguments. -/
def increment (v : SemanticVersion) (minor : Bool := false) (major : Bool := false) :
    SemanticVersion :=
  let s1 : Option Str × Option Nat × Nat :=
    if truthyStr v.prerelease_type then
      (v.prerelease_type, v.prerelease.map (· + 1), v.patch)
    else (none, none, v.patch + 1)
  let s2 : Nat × Nat × Option Str × Option Nat :=
    if minor then (v.minor + 1, 0, none, none)
    else (v.minor, s1.2.2, s1.1, s1.2.1)
  let s3 : Nat × Nat × Nat × Option Str × Option Nat :=
    if major then (v.major + 1, 0, 0, none, none)
    else (v.major, s2.1, s2.2.1, s2.2.2.1, s2.2.2.2)
  mkFields s3.1 s3.2.1 s3.2.2.1 s3.2.2.2.1 s3.2.2.2.2 none none

/-- Python `str(x)` for the optional prerelease number: `str(None)` is the
four-character string `None`. -/
def optNatStr : Option Nat → Str
  | some n => natChars n
  | none => ['N', 'o', 'n', 'e']

/-- `SemanticVersion._long_version`.  A `none` pre-separator is the rpm case:
when a prerelease or dev marker is present the numeric base is the decremented
brief string and the separator becomes a dot. -/
def long_version (v : SemanticVersion) (pre_separator : Option Str)
    (hash_separator : Str) (rc_marker : Str := []) : Str :=
  let bs : Str × Str :=
    if (truthyStr v.prerelease_type || truthyOptNat v.dev_count) && pre_separator.isNone then
      (v.decrement.brief_string, ['.'])
    else (v.brief_string, pre_separator.getD [])
  let preSeg : Str :=
    if truthyStr v.prerelease_type then
      bs.2 ++ rc_marker ++ v.prerelease_type.getD [] ++ optNatStr v.prerelease
    else []
  let devSeg : Str :=
    if truthyOptNat v.dev_count then
      bs.2 ++ ['d', 'e', 'v'] ++ natChars (v.dev_count.getD 0) ++
        (if truthyStr v.githash then hash_separator ++ v.githash.getD [] else [])
    else []
  bs.1 ++ preSeg ++ devSeg

/-- `SemanticVersion.release_string`. -/
def release_string (v : SemanticVersion) : Str :=
  v.long_version (some ['.']) ['.', 'g'] ['0']

/-- `SemanticVersion.debian_string`. -/
def debian_string (v : SemanticVersion) : Str :=
  v.long_version (some ['~']) ['+', 'g']

/-- `SemanticVersion.rpm_string`. -/
def rpm_string (v : SemanticVersion) : Str :=
  v.long_version none ['+', 'g']

/-- `SemanticVersion.to_dev`. -/
def to_dev (v : SemanticVersion) (dev_count : Nat) (githash : Str) : SemanticVersion :=
  mkFields v.major v.minor v.patch none none (some dev_count) (some githash)

/-- `SemanticVersion.to_release`. -/
def to_release (v : SemanticVersion) : SemanticVersion :=
  mkFields v.major v.minor v.patch none none none none

/-- The `type_map` lookup of `version_tuple`; `none` is the `KeyError`. -/
def typeMap : Str → Option Str
  | ['a'] => some ['a', 'l', 'p', 'h', 'a']
  | ['b'] => some ['b', 'e', 't', 'a']
  | ['r', 'c'] => some ['c', 'a', 'n', 'd', 'i', 'd', 'a', 't', 'e']
  | _ => none

/-- `SemanticVersion.version_tuple`.  The error cases (an unmapped prerelease
type, or a `None` prerelease number in the tuple) cannot arise for a
well-formed object with a valid prerelease type. -/
def version_tuple (v : SemanticVersion) : Except String (Nat × Nat × Nat × Str × Nat) :=
  if truthyStr v.prerelease_type then
    match typeMap (v.prerelease_type.getD []), v.prerelease with
    | some kind, some n => .ok (v.major, v.minor, v.patch, kind, n)
    | _, _ => .error "KeyError"
  else if truthyOptNat v.dev_count then
    .ok (v.major, v.minor, v.patch, ['d', 'e', 'v'], v.dev_count.getD 0 - 1)
  else .ok (v.major, v.minor, v.patch, ['f', 'i', 'n', 'a', 'l'], 0)

end SemanticVersion

/-!
The version-string parser and history-resolution functions of
src/pbr/pkgversion/metadata.py.  The git collaborator is abstracted: the
oneline decorated log is a list of `(hash, tag list, subject)` entries
(newest first; the Python tag set is modelled as a list), the raw
commit-range log is a text parameter, and the latest commit hash is a
parameter.
-/

/-- `metadata._parse_type`: split `0a1`-style segments into the prerelease
type letters and the prerelease number; a non-numeric trailing part makes the
final `int` call raise (`none` from `pyIntNat`). -/
def parse_type (segment : Str) : Except String (Str × Nat) :=
  let seg := segment.dropWhile isDigitChar
  let pt := seg.takeWhile isAlphaChar
  match pyIntNat (seg.drop pt.length) with
  | some n => .ok (pt, n)
  | none => .error "invalid literal for int"

/-- The tail of `metadata.from_pip_string` from the final
`if remainder:` block on: recognise `dev<N>` and `g<hash>` components, reject
anything else, then apply the `len(remainder) > 1` githash assignment and call
the constructor. -/
def parseDevHash (major minor patch : Nat) (pt : Option Str) (pr : Option Nat)
    (remainder : List Str) : Except String SemanticVersion :=
  match remainder with
  | [] => SemanticVersion.make major minor patch pt pr none none
  | comp :: _ =>
    let devGh : Except String (Option Nat × Option Str) :=
      if startswith comp ['d', 'e', 'v'] then
        match pyIntNat (comp.drop 3) with
        | some d => .ok (some d, none)
        | none => .error "invalid literal for int"
      else if startswith comp ['g'] then .ok (some 1, some (comp.drop 1))
      else .error "Unknown remainder"
    match devGh with
    | .error e => .error e
    | .ok (dev, gh) =>
      let gh := if 1 < remainder.length then some ((remainder.getD 1 []).drop 1) else gh
      SemanticVersion.make major minor patch pt pr dev gh

/-- `metadata.from_pip_string` from `remainder = components[3:]` on.  The
`remainder_starts_with_int` test is the guarded `int(remainder[0])`
truthiness check; a true test is the old dot-delimited dev-count format, which
still receives the trailing `len(remainder) > 1` githash assignment. -/
def parseRemainder (major minor patch : Nat) (remainder : List Str) :
    Except String SemanticVersion :=
  let rswi : Bool :=
    match remainder with
    | [] => false
    | r0 :: _ =>
      match pyIntNat r0 with
      | some n => n ≠ 0
      | none => false
  if rswi then
    let dev_count := charsToNat (remainder.getD 0 [])
    let githash :=
      if 1 < remainder.length then some ((remainder.getD 1 []).drop 1) else none
    SemanticVersion.make major minor patch none none (some dev_count) githash
  else
    match remainder with
    | [] => SemanticVersion.make major minor patch none none none none
    | r0 :: rest =>
      match r0 with
      | [] => .error "string index out of range"
      | c :: _ =>
        if c = '0' || c = 'a' || c = 'b' || c = 'r' then
          match parse_type r0 with
          | .error e => .error e
          | .ok (pt, pr) => parseDevHash major minor patch (some pt) (some pr) rest
        else parseDevHash major minor patch none none (r0 :: rest)

/-- `metadata.from_pip_string` on the already-split component list: filter the
digit-only components, reject when there are none, run the mixed-component
split (`X.YaZ` legacy forms) and zero-padding when fewer than three, then
rebuild the full component list and hand off.  The padding entries are the
Python integer `0`, modelled as the string `0` (both sides of every later use —
`_is_int`, `int` — agree on the two).  `major`/`minor` are `int` applied to
digit-only components, modelled by `charsToNat`. -/
def fromPipComponents (input_components : List Str) : Except String SemanticVersion :=
  let components0 := input_components.filter pyIsDigit
  let digit_len0 := components0.length
  if digit_len0 = 0 then .error "Invalid version"
  else
    let stepE : Except String (List Str × List Str × Nat) :=
      if digit_len0 < 3 then
        if digit_len0 < input_components.length then
          match input_components.getD digit_len0 [] with
          | [] => .error "string index out of range"
          | c :: cs =>
            if isDigitChar c then
              let mixed := c :: cs
              let last_component := mixed.takeWhile isDigitChar
              .ok (input_components.take digit_len0 ++
                     [last_component, mixed.drop last_component.length] ++
                     input_components.drop (digit_len0 + 1),
                   components0 ++ [last_component] ++
                     List.replicate (3 - (digit_len0 + 1)) ['0'],
                   digit_len0 + 1)
            else
              .ok (input_components,
                   components0 ++ List.replicate (3 - digit_len0) ['0'], digit_len0)
        else
          .ok (input_components,
               components0 ++ List.replicate (3 - digit_len0) ['0'], digit_len0)
      else .ok (input_components, components0, digit_len0)
    match stepE with
    | .error e => .error e
    | .ok (inp, comps, dlen) =>
      let components := comps ++ inp.drop dlen
      let major := charsToNat (components.getD 0 [])
      let minor := charsToNat (components.getD 1 [])
      match pyIntNat (components.getD 2 []) with
      | some patch => parseRemainder major minor patch (components.drop 3)
      | none =>
        -- legacy `1.2.0a1` path: patch 0, insert a `0` at index 2, so the
        -- remainder starts with the old third component
        parseRemainder major minor 0 (components.drop 2)

/-- `metadata.from_pip_string`. -/
def from_pip_string (version_string : Str) : Except String SemanticVersion :=
  fromPipComponents (splitOnChar '.' version_string)

/-- ASCII lowercase, the fragment of Python `str.lower` exercised here. -/
def pyLower (s : Str) : Str :=
  s.map fun c => if 65 ≤ c.toNat && c.toNat ≤ 90 then Char.ofNat (c.toNat + 32) else c

/-- Python whitespace (`str.strip` default set, ASCII fragment). -/
def isPySpace (c : Char) : Bool :=
  c = ' ' || c = '\t' || c = '\n' || c = '\x0b' || c = '\x0c' || c = '\r'

/-- Python `s.strip()`. -/
def pyStrip (s : Str) : Str :=
  ((s.dropWhile isPySpace).reverse.dropWhile isPySpace).reverse

/-- The `sem-ver:` directive symbols collected by
`metadata._get_increment_kwargs` from the raw commit-range log text: lines
whose lowercasing starts with the four-space-indented `sem-ver:` header are
taken past the 12-character header, stripped, split on commas and stripped
again.  The Python symbol set is modelled as a list (only membership is
consumed). -/
def semVerSymbols (changelog : Str) : List Str :=
  let header : Str := [' ', ' ', ' ', ' ', 's', 'e', 'm', '-', 'v', 'e', 'r', ':']
  let commands :=
    ((splitOnChar '\n' changelog).filter fun l => startswith (pyLower l) header).map
      fun l => pyStrip (l.drop 12)
  commands.flatMap fun c => (splitOnChar ',' c).map pyStrip

/-- `metadata._get_increment_kwargs`, parameterised by the commit-range log
text the git collaborator returns for `tag..HEAD`.  `bugfix` is handled and
then popped (it is the default patch increment, not a keyword argument);
`feature` and `deprecation` map to the `minor` flag, `api-break` to `major`;
unknown symbols are logged and dropped.  Result: `(minor, major)` keyword
flags for `SemanticVersion.increment`. -/
def get_increment_kwargs (changelog : Str) : Bool × Bool :=
  let symbols := semVerSymbols changelog
  (decide (['f', 'e', 'a', 't', 'u', 'r', 'e'] ∈ symbols) ||
     decide (['d', 'e', 'p', 'r', 'e', 'c', 'a', 't', 'i', 'o', 'n'] ∈ symbols),
   decide (['a', 'p', 'i', '-', 'b', 'r', 'e', 'a', 'k'] ∈ symbols))

/-- A oneline decorated log entry from the git collaborator:
`(hash, tag list, subject)`. -/
abbrev LogEntry := Str × List Str × Str

/-- The per-entry tag parse of `metadata._get_revno_and_last_tag`: every tag
is tried with `from_pip_string` and failures are silently ignored. -/
def parsedTags (e : LogEntry) : List SemanticVersion :=
  e.2.1.filterMap fun t => (from_pip_string t).toOption

/-- Python `max` over the parsed-tag collection: scan with `>`; a `>` that
raises propagates.  (CPython iterates the set in unspecified order; the list
order here is the tag order, which agrees on every defined result.) -/
def pyMax : List SemanticVersion → Except String SemanticVersion
  | [] => .error "max of empty sequence"
  | x :: xs =>
    xs.foldlM
      (fun best y =>
        match SemanticVersion.pyGt y best with
        | .error e => .error e
        | .ok true => .ok y
        | .ok false => .ok best)
      x

/-- The loop of `metadata._get_revno_and_last_tag`: `idx` is the enumerate
index of the entry under inspection and `rowCount` the Python `row_count`
variable, which is `0` before the loop and afterwards holds the index of the
last entry processed. -/
def getRevnoGo : List LogEntry → Nat → Nat → Except String (Str × Nat)
  | [], _, rowCount => .ok ([], rowCount)
  | e :: rest, idx, _ =>
    let tags := parsedTags e
    if tags.isEmpty then getRevnoGo rest (idx + 1) idx
    else
      match pyMax tags with
      | .error err => .error err
      | .ok m => .ok (m.release_string, idx)

/-- `metadata._get_revno_and_last_tag` over the collaborator's oneline log. -/
def get_revno_and_last_tag (log : List LogEntry) : Except String (Str × Nat) :=
  getRevnoGo log 0 0

/-- `metadata._calculate_target_version`, parameterised by the oneline log,
the commit-range log text and the latest commit hash supplied by the git
collaborator.  Mirrors the source statement by statement: compute the tag and
distance, parse `tag or '0'`, take the last version itself at distance `0` and
an incremented one otherwise, apply the explicit-target constraint check, and
only then return (the last version exactly at distance `0`, a `to_dev` of the
target or computed version otherwise). -/
def calculate_target_version (log : List LogEntry) (changelog : Str)
    (lastCommit : Str) (target_version : Option SemanticVersion) :
    Except String SemanticVersion :=
  match get_revno_and_last_tag log with
  | .error e => .error e
  | .ok (tag, distance) =>
    match from_pip_string (if tag.isEmpty then ['0'] else tag) with
    | .error e => .error e
    | .ok last_semver =>
      let new_version :=
        if distance = 0 then last_semver
        else
          last_semver.increment (get_increment_kwargs changelog).1
            (get_increment_kwargs changelog).2
      let check : Except String Unit :=
        match target_version with
        | some t =>
          match SemanticVersion.pyGt new_version t with
          | .error e => .error e
          | .ok true => .error "git history requires a newer target version"
          | .ok false => .ok ()
        | none => .ok ()
      match check with
      | .error e => .error e
      | .ok () =>
        if distance = 0 then .ok last_semver
        else
          match target_version with
          | some t => .ok (t.to_dev distance lastCommit)
          | none => .ok (new_version.to_dev distance lastCommit)

/-- The version shapes the release-string renderer produces: a plain release,
a prerelease (type `a`, `b` or `rc` with a prerelease number, no dev fields),
or a dev build (a positive `dev_count` with an optional non-empty, dot-free
git hash). -/
def RenderableForm (v : SemanticVersion) : Prop :=
  (v.prerelease_type = none ∧ v.prerelease = none ∧ v.dev_count = none ∧
    v.githash = none) ∨
  ((v.prerelease_type = some ['a'] ∨ v.prerelease_type = some ['b'] ∨
      v.prerelease_type = some ['r', 'c']) ∧ (∃ r, v.prerelease = some r) ∧
    v.dev_count = none ∧ v.githash = none) ∨
  (v.prerelease_type = none ∧ v.prerelease = none ∧
    (∃ d, v.dev_count = some d ∧ d ≠ 0) ∧
    (v.githash = none ∨ ∃ h, v.githash = some h ∧ h ≠ [] ∧ ∀ c ∈ h, c ≠ '.'))

/-!
Infrastructure lemmas: decimal rendering, splitting, digit classification.
-/

theorem digitChar_isDigit (k : Nat) (h : k < 10) : isDigitChar (Nat.digitChar k) = true := by
  interval_cases k <;> decide

theorem digitChar_toNat (k : Nat) (h : k < 10) : (Nat.digitChar k).toNat = k + 48 := by
  interval_cases k <;> decide

theorem charsToNat_append_single (s : Str) (c : Char) :
    charsToNat (s ++ [c]) = charsToNat s * 10 + (c.toNat - 48) := by
  simp [charsToNat, List.foldl_append]

theorem natCharsGo_props (fuel : Nat) :
    ∀ n, n < fuel →
      (natCharsGo fuel n).all isDigitChar = true ∧ natCharsGo fuel n ≠ [] ∧
        charsToNat (natCharsGo fuel n) = n := by
  induction fuel with
  | zero => intro n h; omega
  | succ f ih =>
    intro n h
    unfold natCharsGo
    by_cases h10 : n < 10
    · simp only [h10, if_true]
      refine ⟨?_, by simp, ?_⟩
      · simp [digitChar_isDigit n h10]
      · have := digitChar_toNat n h10
        simp [charsToNat, this]
    · simp only [h10, if_false]
      have hdiv : n / 10 < f := by
        have h1 : n / 10 < n := Nat.div_lt_self (by omega) (by omega)
        omega
      obtain ⟨ha, hne, hval⟩ := ih (n / 10) hdiv
      have hmod : n % 10 < 10 := Nat.mod_lt _ (by omega)
      refine ⟨?_, by simp, ?_⟩
      · simp [List.all_append, ha, digitChar_isDigit _ hmod]
      · rw [charsToNat_append_single, hval, digitChar_toNat _ hmod]
        omega

theorem natChars_all_digit (n : Nat) : (natChars n).all isDigitChar = true :=
  (natCharsGo_props (n + 1) n (Nat.lt_succ_self n)).1

theorem natChars_ne_nil (n : Nat) : natChars n ≠ [] :=
  (natCharsGo_props (n + 1) n (Nat.lt_succ_self n)).2.1

theorem charsToNat_natChars (n : Nat) : charsToNat (natChars n) = n :=
  (natCharsGo_props (n + 1) n (Nat.lt_succ_self n)).2.2

theorem pyIsDigit_natChars (n : Nat) : pyIsDigit (natChars n) = true := by
  simp [pyIsDigit, natChars_all_digit n, List.isEmpty_iff, natChars_ne_nil n]

theorem pyIntNat_natChars (n : Nat) : pyIntNat (natChars n) = some n := by
  simp [pyIntNat, pyIsDigit_natChars n, charsToNat_natChars n]

theorem isDigit_not_alpha {c : Char} (h : isDigitChar c = true) : isAlphaChar c = false := by
  simp only [isDigitChar, Bool.and_eq_true, decide_eq_true_eq] at h
  simp only [isAlphaChar, Bool.or_eq_false_iff, Bool.and_eq_false_iff]
  constructor <;> [left; left] <;> simp <;> omega

theorem mem_natChars_isDigit {c : Char} {n : Nat} (h : c ∈ natChars n) :
    isDigitChar c = true := by
  have := natChars_all_digit n
  rw [List.all_eq_true] at this
  exact this c h

theorem mem_natChars_ne {c : Char} {n : Nat} (h : c ∈ natChars n) (d : Char)
    (hd : isDigitChar d = false) : c ≠ d := by
  intro heq
  rw [heq] at h
  rw [mem_natChars_isDigit h] at hd
  cases hd

theorem natChars_takeWhile_alpha (n : Nat) : (natChars n).takeWhile isAlphaChar = [] := by
  cases hn : natChars n with
  | nil => rfl
  | cons c rest =>
    have hc : isDigitChar c = true := mem_natChars_isDigit (by rw [hn]; exact List.mem_cons_self c rest)
    simp [List.takeWhile, isDigit_not_alpha hc]

theorem splitOnChar_ne_nil (sep : Char) (s : Str) : splitOnChar sep s ≠ [] := by
  cases s with
  | nil => simp [splitOnChar]
  | cons c rest =>
    by_cases h : c = sep <;> simp [splitOnChar, h]
    cases splitOnChar sep rest <;> simp

theorem splitOnChar_no_sep (sep : Char) (a : Str) (h : ∀ c ∈ a, c ≠ sep) :
    splitOnChar sep a = [a] := by
  induction a with
  | nil => rfl
  | cons c rest ih =>
    have hc : c ≠ sep := h c (List.mem_cons_self c rest)
    have hrest := ih fun x hx => h x (List.mem_cons_of_mem c hx)
    simp [splitOnChar, hc, hrest]

theorem splitOnChar_append_sep (sep : Char) (a r : Str) (h : ∀ c ∈ a, c ≠ sep) :
    splitOnChar sep (a ++ sep :: r) = a :: splitOnChar sep r := by
  induction a with
  | nil => simp [splitOnChar]
  | cons c rest ih =>
    have hc : c ≠ sep := h c (List.mem_cons_self c rest)
    have hrest := ih fun x hx => h x (List.mem_cons_of_mem c hx)
    simp only [List.cons_append, splitOnChar, hc, if_false, List.append_eq, hrest]

/-!
Helper lemmas about the value-object operations.
-/

theorem wf_pt_pr {v : SemanticVersion} (h : v.wf = true)
    (hp : truthyStr v.prerelease_type = true) : ∃ x, v.prerelease = some x := by
  simp only [SemanticVersion.wf, Bool.and_eq_true, Bool.or_eq_true, Bool.not_eq_true'] at h
  rcases h.1 with h1 | h1
  · rw [hp] at h1; cases h1
  · exact Option.isSome_iff_exists.mp h1

theorem truthyStr_isSome {o : Option Str} (h : truthyStr o = true) : o.isSome = true := by
  cases o with
  | none => cases h
  | some s => rfl

theorem truthyOptNat_isSome {o : Option Nat} (h : truthyOptNat o = true) : o.isSome = true := by
  cases o with
  | none => cases h
  | some n => rfl

theorem wf_pt_dev {v : SemanticVersion} (h : v.wf = true)
    (hp : truthyStr v.prerelease_type = true) : truthyOptNat v.dev_count = false := by
  simp only [SemanticVersion.wf, Bool.and_eq_true, Bool.or_eq_true, Bool.not_eq_true'] at h
  have h2 := h.2
  rw [truthyStr_isSome hp] at h2
  simp only [Bool.true_and] at h2
  cases hd : v.dev_count with
  | none => rfl
  | some n => rw [hd] at h2; cases h2

theorem wf_dev_pt {v : SemanticVersion} (h : v.wf = true)
    (hd : truthyOptNat v.dev_count = true) : v.prerelease_type = none := by
  simp only [SemanticVersion.wf, Bool.and_eq_true, Bool.or_eq_true, Bool.not_eq_true'] at h
  have h2 := h.2
  rw [truthyOptNat_isSome hd] at h2
  simp only [Bool.and_true] at h2
  cases hp : v.prerelease_type with
  | none => rfl
  | some s => rw [hp] at h2; cases h2

theorem increment_major_eq (v : SemanticVersion) (mi : Bool) :
    v.increment mi true = ⟨v.major + 1, 0, 0, none, none, none, none⟩ := by
  by_cases h : truthyStr v.prerelease_type = true <;>
    cases mi <;>
      simp [SemanticVersion.increment, SemanticVersion.mkFields, h, truthyStr, truthyOptNat]

theorem increment_minor_eq (v : SemanticVersion) :
    v.increment true false = ⟨v.major, v.minor + 1, 0, none, none, none, none⟩ := by
  by_cases h : truthyStr v.prerelease_type = true <;>
    simp [SemanticVersion.increment, SemanticVersion.mkFields, h, truthyStr, truthyOptNat]

theorem increment_no_dev (v : SemanticVersion) (mi ma : Bool) :
    (v.increment mi ma).dev_count = none ∧ (v.increment mi ma).githash = none := by
  constructor <;> simp [SemanticVersion.increment, SemanticVersion.mkFields]

theorem tupleLt_ne {x y : Nat × Nat × Nat} (h : tupleLt x y = true) : x ≠ y := by
  obtain ⟨x1, x2, x3⟩ := x
  obtain ⟨y1, y2, y3⟩ := y
  simp only [tupleLt, Bool.or_eq_true, Bool.and_eq_true, decide_eq_true_eq] at h
  intro heq
  injection heq with e1 e23
  injection e23 with e2 e3
  omega

theorem tupleLt_antisymm {x y : Nat × Nat × Nat} (h1 : tupleLt x y = false)
    (h2 : tupleLt y x = false) : x = y := by
  obtain ⟨x1, x2, x3⟩ := x
  obtain ⟨y1, y2, y3⟩ := y
  simp only [tupleLt, Bool.or_eq_false_iff, Bool.and_eq_false_iff, decide_eq_false_iff_not] at h1 h2
  have : x1 = y1 ∧ x2 = y2 ∧ x3 = y3 := by omega
  simp [this.1, this.2.1, this.2.2]

/-!
Claims.
-/

/-- Claim C9: the `SemanticVersion` constructor fails exactly when both
`prerelease_type` and `dev_count` are supplied non-`None`; in particular a
`githash` together with a `prerelease_type` (with `dev_count` absent) is
accepted. -/
theorem c9_constructor_validation (major minor patch : Nat) (pt : Option Str)
    (pr : Option Nat) (dev : Option Nat) (gh : Option Str) :
    (isErr (SemanticVersion.make major minor patch pt pr dev gh) = true ↔
      pt.isSome = true ∧ dev.isSome = true) ∧
    isErr (SemanticVersion.make major minor patch pt pr none gh) = false := by
  cases pt <;> cases dev <;> simp [SemanticVersion.make, isErr]

/-- Claim C8: for every well-formed `SemanticVersion`, `increment` with
`major=True` yields major+1, minor=0, patch=0 with no prerelease fields, and
no `increment` call ever carries `dev_count` or `githash` into its result. -/
theorem c8_increment_major (v : SemanticVersion) (mi ma : Bool) (_hwf : v.wf = true) :
    v.increment false true = ⟨v.major + 1, 0, 0, none, none, none, none⟩ ∧
    (v.increment mi ma).dev_count = none ∧ (v.increment mi ma).githash = none :=
  ⟨increment_major_eq v false, increment_no_dev v mi ma⟩

/-- Witness for C8 at a concrete prerelease version. -/
theorem c8_increment_major_witness :
    SemanticVersion.increment ⟨1, 2, 3, some ['b'], some 1, none, none⟩ false true =
        ⟨2, 0, 0, none, none, none, none⟩ ∧
      (SemanticVersion.increment ⟨1, 2, 3, some ['b'], some 1, none, none⟩ true false).dev_count =
        none ∧
      (SemanticVersion.increment ⟨1, 2, 3, some ['b'], some 1, none, none⟩ true false).githash =
        none :=
  c8_increment_major ⟨1, 2, 3, some ['b'], some 1, none, none⟩ true false (by decide)

/-- Claim C3, amended: for a version carrying a prerelease or dev marker whose
`(major, minor, patch)` is not `(0, 0, 0)`, `decrement` yields a strictly
smaller version under the defined ordering, carries no prerelease or dev
fields, and follows the borrow algorithm (patch-1, else patch=9999 borrowing
from minor, else minor=9999 borrowing from major; `Nat` subtraction floors
major at 0).  At `(0, 0, 0)` the guarantee fails, see the counterexample. -/
theorem c3_decrement_lt (v : SemanticVersion)
    (_hmark : truthyStr v.prerelease_type = true ∨ truthyOptNat v.dev_count = true)
    (hne : (v.major, v.minor, v.patch) ≠ (0, 0, 0)) :
    SemanticVersion.pyLt v.decrement v = .ok true ∧
    v.decrement.prerelease_type = none ∧ v.decrement.prerelease = none ∧
    v.decrement.dev_count = none ∧ v.decrement.githash = none ∧
    (v.patch ≠ 0 → v.decrement = ⟨v.major, v.minor, v.patch - 1, none, none, none, none⟩) ∧
    (v.patch = 0 → v.minor ≠ 0 →
      v.decrement = ⟨v.major, v.minor - 1, 9999, none, none, none, none⟩) ∧
    (v.patch = 0 → v.minor = 0 →
      v.decrement = ⟨v.major - 1, 9999, 9999, none, none, none, none⟩) := by
  have hor : v.patch ≠ 0 ∨ v.minor ≠ 0 ∨ v.major ≠ 0 := by
    by_contra hall
    push_neg at hall
    exact hne (by rw [hall.2.2, hall.2.1, hall.1])
  by_cases hp : v.patch = 0
  · by_cases hm : v.minor = 0
    · have hM : v.major ≠ 0 := by
        rcases hor with h | h | h
        · exact absurd hp h
        · exact absurd hm h
        · exact h
      have hdec : v.decrement = ⟨v.major - 1, 9999, 9999, none, none, none, none⟩ := by
        simp [SemanticVersion.decrement, SemanticVersion.mkFields, hp, hm, hM, truthyStr]
      have h1 : tupleLt (v.major - 1, 9999, 9999) (v.major, v.minor, v.patch) = true := by
        simp [tupleLt]
        omega
      refine ⟨?_, by simp [hdec], by simp [hdec], by simp [hdec], by simp [hdec],
        fun h => absurd hp h, fun _ h => absurd hm h, fun _ _ => hdec⟩
      rw [hdec]
      simp [SemanticVersion.pyLt, h1]
    · have hdec : v.decrement = ⟨v.major, v.minor - 1, 9999, none, none, none, none⟩ := by
        simp [SemanticVersion.decrement, SemanticVersion.mkFields, hp, hm, truthyStr]
      have h1 : tupleLt (v.major, v.minor - 1, 9999) (v.major, v.minor, v.patch) = true := by
        simp [tupleLt]
        omega
      refine ⟨?_, by simp [hdec], by simp [hdec], by simp [hdec], by simp [hdec],
        fun h => absurd hp h, fun _ h => hdec, fun _ h => absurd h hm⟩
      rw [hdec]
      simp [SemanticVersion.pyLt, h1]
  · have hdec : v.decrement = ⟨v.major, v.minor, v.patch - 1, none, none, none, none⟩ := by
      simp [SemanticVersion.decrement, SemanticVersion.mkFields, hp, truthyStr]
    have h1 : tupleLt (v.major, v.minor, v.patch - 1) (v.major, v.minor, v.patch) = true := by
      simp [tupleLt]
      omega
    refine ⟨?_, by simp [hdec], by simp [hdec], by simp [hdec], by simp [hdec],
      fun _ => hdec, fun h => absurd h hp, fun h => absurd h hp⟩
    rw [hdec]
    simp [SemanticVersion.pyLt, h1]

/-- Witness for C3 at the prerelease version `1.0.0.0a0`: its decrement is
`0.9999.9999` and compares strictly below it. -/
theorem c3_decrement_lt_witness :
    SemanticVersion.pyLt
        (SemanticVersion.decrement ⟨1, 0, 0, some ['a'], some 0, none, none⟩)
        ⟨1, 0, 0, some ['a'], some 0, none, none⟩ = .ok true ∧
    (SemanticVersion.decrement ⟨1, 0, 0, some ['a'], some 0, none, none⟩) =
      ⟨0, 9999, 9999, none, none, none, none⟩ :=
  ⟨(c3_decrement_lt ⟨1, 0, 0, some ['a'], some 0, none, none⟩ (Or.inl (by decide))
      (by decide)).1,
   (c3_decrement_lt ⟨1, 0, 0, some ['a'], some 0, none, none⟩ (Or.inl (by decide))
      (by decide)).2.2.2.2.2.2.2 rfl rfl⟩

/-- Claim C3 counterexample: the prerelease version `0.0.0.0a0` carries a
prerelease marker, yet its decrement `0.9999.9999` does NOT compare strictly
below it (the comparison is defined and yields false), refuting the claim's
universal strict-decrease property. -/
theorem c3_counterexample :
    (⟨0, 0, 0, some ['a'], some 0, none, none⟩ : SemanticVersion).prerelease_type.isSome = true ∧
    SemanticVersion.pyLt
        (SemanticVersion.decrement ⟨0, 0, 0, some ['a'], some 0, none, none⟩)
        ⟨0, 0, 0, some ['a'], some 0, none, none⟩ = .ok false :=
  ⟨rfl, rfl⟩

/-- Claim C7: an `api-break` directive in the collected sem-ver symbols forces
a major increment — major+1, minor=0, patch=0, no prerelease or dev fields —
regardless of other symbols; without `api-break`, a `feature` or `deprecation`
symbol yields a minor increment.  Unknown symbols only get logged, so the
result depends solely on the recognised symbols' membership. -/
theorem c7_api_break_major (changelog : Str) (v : SemanticVersion) (_hwf : v.wf = true) :
    (['a', 'p', 'i', '-', 'b', 'r', 'e', 'a', 'k'] ∈ semVerSymbols changelog →
      v.increment (get_increment_kwargs changelog).1 (get_increment_kwargs changelog).2 =
        ⟨v.major + 1, 0, 0, none, none, none, none⟩) ∧
    (['a', 'p', 'i', '-', 'b', 'r', 'e', 'a', 'k'] ∉ semVerSymbols changelog →
      (['f', 'e', 'a', 't', 'u', 'r', 'e'] ∈ semVerSymbols changelog ∨
        ['d', 'e', 'p', 'r', 'e', 'c', 'a', 't', 'i', 'o', 'n'] ∈ semVerSymbols changelog) →
      v.increment (get_increment_kwargs changelog).1 (get_increment_kwargs changelog).2 =
        ⟨v.major, v.minor + 1, 0, none, none, none, none⟩) := by
  constructor
  · intro hmem
    have hmaj : (get_increment_kwargs changelog).2 = true := by
      simp [get_increment_kwargs, hmem]
    rw [hmaj]
    exact increment_major_eq v _
  · intro hnmem hmin
    have hmaj : (get_increment_kwargs changelog).2 = false := by
      simp [get_increment_kwargs, hnmem]
    have hmi : (get_increment_kwargs changelog).1 = true := by
      rcases hmin with h | h <;> simp [get_increment_kwargs, h]
    rw [hmaj, hmi]
    exact increment_minor_eq v

/-- Witness for C7: a log with `api-break` plus `feature` still majors, and a
log with `feature` plus an unknown symbol minors. -/
theorem c7_api_break_major_witness :
    SemanticVersion.increment ⟨1, 2, 3, none, none, none, none⟩
        (get_increment_kwargs "    sem-ver: api-break, feature".toList).1
        (get_increment_kwargs "    sem-ver: api-break, feature".toList).2 =
      ⟨2, 0, 0, none, none, none, none⟩ ∧
    SemanticVersion.increment ⟨1, 2, 3, none, none, none, none⟩
        (get_increment_kwargs "    sem-ver: feature, zap".toList).1
        (get_increment_kwargs "    sem-ver: feature, zap".toList).2 =
      ⟨1, 3, 0, none, none, none, none⟩ :=
  ⟨(c7_api_break_major _ ⟨1, 2, 3, none, none, none, none⟩ (by decide)).1 (by decide),
   (c7_api_break_major _ ⟨1, 2, 3, none, none, none, none⟩ (by decide)).2 (by decide)
     (Or.inl (by decide))⟩

theorem bool_not_true {x : Bool} (h : ¬x = true) : x = false := by
  cases x
  · rfl
  · exact absurd rfl h

/-- Claim C5: for well-formed versions with equal `(major, minor, patch)`,
comparison fails (raises) exactly when one side is a prerelease and the other
a dev build (either direction), or both are dev builds with equal `dev_count`
but differing `githash`; both sides being dev builds with equal `dev_count`
and equal `githash` compare equal (not-less in both directions), and no other
comparison raises (unequal tuples are always decided).  Following C10 and the
code's truthiness, "has a dev_count" means a truthy (positive) `dev_count` and
"has a prerelease_type" a truthy (non-empty) type. -/
theorem c5_undefined_order (a b : SemanticVersion) (hwa : a.wf = true) (hwb : b.wf = true) :
    (isErr (SemanticVersion.pyLt a b) = true ↔
      ((a.major, a.minor, a.patch) = (b.major, b.minor, b.patch) ∧
        ((truthyStr a.prerelease_type = true ∧ truthyOptNat b.dev_count = true) ∨
         (truthyOptNat a.dev_count = true ∧ truthyStr b.prerelease_type = true) ∨
         (truthyOptNat a.dev_count = true ∧ truthyOptNat b.dev_count = true ∧
           a.dev_count = b.dev_count ∧ a.githash ≠ b.githash)))) ∧
    ((a.major, a.minor, a.patch) = (b.major, b.minor, b.patch) →
      truthyOptNat a.dev_count = true → a.dev_count = b.dev_count → a.githash = b.githash →
      SemanticVersion.pyLt a b = .ok false ∧ SemanticVersion.pyLt b a = .ok false) := by
  by_cases h1 : tupleLt (a.major, a.minor, a.patch) (b.major, b.minor, b.patch) = true
  · have hne := tupleLt_ne h1
    refine ⟨?_, fun heq => absurd heq hne⟩
    simp [SemanticVersion.pyLt, h1, isErr, hne]
  · have h1' := bool_not_true h1
    by_cases h2 : tupleLt (b.major, b.minor, b.patch) (a.major, a.minor, a.patch) = true
    · have hne : (a.major, a.minor, a.patch) ≠ (b.major, b.minor, b.patch) :=
        fun heq => tupleLt_ne h2 heq.symm
      refine ⟨?_, fun heq => absurd heq hne⟩
      simp [SemanticVersion.pyLt, h1', h2, isErr, hne]
    · have h2' := bool_not_true h2
      have heq := tupleLt_antisymm h1' h2'
      by_cases hpa : truthyStr a.prerelease_type = true
      · have hda : truthyOptNat a.dev_count = false := wf_pt_dev hwa hpa
        by_cases hpb : truthyStr b.prerelease_type = true
        · have hdb : truthyOptNat b.dev_count = false := wf_pt_dev hwb hpb
          obtain ⟨x, hx⟩ := wf_pt_pr hwa hpa
          obtain ⟨y, hy⟩ := wf_pt_pr hwb hpb
          refine ⟨?_, fun _ hdat => absurd hdat (by simp [hda])⟩
          have hlhs : isErr (SemanticVersion.pyLt a b) = false := by
            by_cases hss : a.prerelease_type.getD [] = b.prerelease_type.getD []
            · simp [SemanticVersion.pyLt, h1', h2', hpa, hpb, hss, hx, hy, isErr]
            · simp [SemanticVersion.pyLt, h1', h2', hpa, hpb, hss, isErr]
          simp [hlhs, hda, hdb]
        · have hpb' := bool_not_true hpb
          by_cases hdb : truthyOptNat b.dev_count = true
          · refine ⟨?_, fun _ hdat => absurd hdat (by simp [hda])⟩
            have hlhs : isErr (SemanticVersion.pyLt a b) = true := by
              simp [SemanticVersion.pyLt, h1', h2', hpa, hpb', hdb, isErr]
            simp [hlhs, heq, hpa, hdb]
          · have hdb' := bool_not_true hdb
            refine ⟨?_, fun _ hdat => absurd hdat (by simp [hda])⟩
            have hlhs : isErr (SemanticVersion.pyLt a b) = false := by
              simp [SemanticVersion.pyLt, h1', h2', hpa, hpb', hdb', isErr]
            simp [hlhs, hda, hdb']
      · have hpa' := bool_not_true hpa
        by_cases hda : truthyOptNat a.dev_count = true
        · by_cases hdb : truthyOptNat b.dev_count = true
          · have hpb' : truthyStr b.prerelease_type = false := by
              rw [wf_dev_pt hwb hdb]; rfl
            obtain ⟨da, hda_eq⟩ : ∃ da, a.dev_count = some da := by
              cases had : a.dev_count with
              | none => rw [had] at hda; cases hda
              | some n => exact ⟨n, rfl⟩
            obtain ⟨db, hdb_eq⟩ : ∃ db, b.dev_count = some db := by
              cases hbd : b.dev_count with
              | none => rw [hbd] at hdb; cases hdb
              | some n => exact ⟨n, rfl⟩
            by_cases hlt : a.dev_count.getD 0 < b.dev_count.getD 0
            · have hne3 : a.dev_count ≠ b.dev_count := by
                intro hh
                rw [hh] at hlt
                omega
              refine ⟨?_, fun _ _ hdev => absurd hdev hne3⟩
              have hlhs : isErr (SemanticVersion.pyLt a b) = false := by
                simp [SemanticVersion.pyLt, h1', h2', hpa', hda, hdb, hlt, isErr]
              simp [hlhs, hpa', hpb', hne3]
            · by_cases hgt : b.dev_count.getD 0 < a.dev_count.getD 0
              · have hne3 : a.dev_count ≠ b.dev_count := by
                  intro hh
                  rw [hh] at hgt
                  omega
                refine ⟨?_, fun _ _ hdev => absurd hdev hne3⟩
                have hlhs : isErr (SemanticVersion.pyLt a b) = false := by
                  simp [SemanticVersion.pyLt, h1', h2', hpa', hda, hdb, hlt, hgt, isErr]
                simp [hlhs, hpa', hpb', hne3]
              · have hdeq : a.dev_count = b.dev_count := by
                  rw [hda_eq, hdb_eq]
                  rw [hda_eq, hdb_eq] at hlt hgt
                  simp at hlt hgt ⊢
                  omega
                by_cases hgh : a.githash = b.githash
                · have hlhs : isErr (SemanticVersion.pyLt a b) = false := by
                    simp [SemanticVersion.pyLt, h1', h2', hpa', hda, hdb, hlt, hgt, hgh, isErr]
                  refine ⟨by simp [hlhs, hpa', hpb', hgh], fun _ _ _ _ => ⟨?_, ?_⟩⟩
                  · simp [SemanticVersion.pyLt, h1', h2', hpa', hda, hdb, hlt, hgt, hgh]
                  · simp [SemanticVersion.pyLt, h1', h2', hpa', hpb', hda, hdb, hlt, hgt, hgh.symm]
                · refine ⟨?_, fun _ _ _ hghe => absurd hghe hgh⟩
                  have hlhs : isErr (SemanticVersion.pyLt a b) = true := by
                    simp [SemanticVersion.pyLt, h1', h2', hpa', hda, hdb, hlt, hgt, hgh, isErr]
                  simp [hlhs, heq, hda, hdb, hdeq, hgh]
          · have hdb' := bool_not_true hdb
            by_cases hpb : truthyStr b.prerelease_type = true
            · refine ⟨?_, fun _ hdat hdev => ?_⟩
              · have hlhs : isErr (SemanticVersion.pyLt a b) = true := by
                  simp [SemanticVersion.pyLt, h1', h2', hpa', hda, hdb', hpb, isErr]
                simp [hlhs, heq, hda, hpb]
              · rw [hdev] at hdat
                rw [hdb'] at hdat
                cases hdat
            · have hpb' := bool_not_true hpb
              refine ⟨?_, fun _ hdat hdev => ?_⟩
              · have hlhs : isErr (SemanticVersion.pyLt a b) = false := by
                  simp [SemanticVersion.pyLt, h1', h2', hpa', hda, hdb', hpb', isErr]
                simp [hlhs, hpa', hpb', hdb']
              · exfalso
                rw [hdev] at hdat
                rw [hdb'] at hdat
                cases hdat
        · have hda' := bool_not_true hda
          refine ⟨?_, fun _ hdat => absurd hdat (by simp [hda'])⟩
          have hlhs : isErr (SemanticVersion.pyLt a b) = false := by
            simp [SemanticVersion.pyLt, h1', h2', hpa', hda', isErr]
          simp [hlhs, hpa', hda']

/-- Witness for C5: a prerelease `1.2.3.0a0` against a dev build `1.2.3.dev1`
raises, and two equal-hash dev builds compare equal in both directions. -/
theorem c5_undefined_order_witness :
    isErr (SemanticVersion.pyLt ⟨1, 2, 3, some ['a'], some 0, none, none⟩
        ⟨1, 2, 3, none, none, some 1, none⟩) = true ∧
    SemanticVersion.pyLt ⟨1, 2, 3, none, none, some 2, some ['e']⟩
        ⟨1, 2, 3, none, none, some 2, some ['e']⟩ = .ok false :=
  ⟨(c5_undefined_order ⟨1, 2, 3, some ['a'], some 0, none, none⟩
        ⟨1, 2, 3, none, none, some 1, none⟩ (by decide) (by decide)).1.mpr
      ⟨rfl, Or.inl ⟨by decide, by decide⟩⟩,
    ((c5_undefined_order ⟨1, 2, 3, none, none, some 2, some ['e']⟩
        ⟨1, 2, 3, none, none, some 2, some ['e']⟩ (by decide) (by decide)).2 rfl
      (by decide) rfl rfl).1⟩

/-- Claim C10: a well-formed version with `dev_count = 0` behaves exactly like
one with `dev_count = None`: every rendered dialect is unchanged (and emits no
dev suffix or git hash — the release string collapses to the brief string,
since well-formedness forces the prerelease type to be absent alongside a
present `dev_count`), `version_tuple` reports `final` with serial 0, and both
sides of the ordering treat it as a plain release. -/
theorem c10_dev_zero (v : SemanticVersion) (hwf : v.wf = true)
    (hdz : v.dev_count = some 0) :
    v.release_string = SemanticVersion.release_string {v with dev_count := none} ∧
    v.debian_string = SemanticVersion.debian_string {v with dev_count := none} ∧
    v.rpm_string = SemanticVersion.rpm_string {v with dev_count := none} ∧
    v.brief_string = SemanticVersion.brief_string {v with dev_count := none} ∧
    v.release_string = v.brief_string ∧
    v.version_tuple = .ok (v.major, v.minor, v.patch, ['f', 'i', 'n', 'a', 'l'], 0) ∧
    v.version_tuple = SemanticVersion.version_tuple {v with dev_count := none} ∧
    ∀ w, SemanticVersion.pyLt v w = SemanticVersion.pyLt {v with dev_count := none} w ∧
      SemanticVersion.pyLt w v = SemanticVersion.pyLt w {v with dev_count := none} := by
  have hpt : v.prerelease_type = none := by
    simp only [SemanticVersion.wf, Bool.and_eq_true, Bool.or_eq_true, Bool.not_eq_true'] at hwf
    have h2 := hwf.2
    rw [hdz] at h2
    cases hv : v.prerelease_type with
    | none => rfl
    | some s => rw [hv] at h2; simp at h2
  refine ⟨?_, ?_, ?_, ?_, ?_, ?_, ?_, fun w => ⟨?_, ?_⟩⟩ <;>
    simp [SemanticVersion.release_string, SemanticVersion.debian_string,
      SemanticVersion.rpm_string, SemanticVersion.long_version,
      SemanticVersion.brief_string, SemanticVersion.version_tuple,
      SemanticVersion.pyLt, hpt, hdz, truthyStr, truthyOptNat]

/-- Witness for C10 at `1.2.3` with `dev_count = 0` and a git hash. -/
theorem c10_dev_zero_witness :
    SemanticVersion.release_string ⟨1, 2, 3, none, none, some 0, some ['a', 'b', 'c']⟩ =
      SemanticVersion.brief_string ⟨1, 2, 3, none, none, some 0, some ['a', 'b', 'c']⟩ ∧
    SemanticVersion.version_tuple ⟨1, 2, 3, none, none, some 0, some ['a', 'b', 'c']⟩ =
      .ok (1, 2, 3, ['f', 'i', 'n', 'a', 'l'], 0) ∧
    SemanticVersion.pyLt ⟨1, 2, 3, none, none, some 0, some ['a', 'b', 'c']⟩
        ⟨1, 2, 3, none, none, some 5, none⟩ =
      SemanticVersion.pyLt ⟨1, 2, 3, none, none, none, some ['a', 'b', 'c']⟩
        ⟨1, 2, 3, none, none, some 5, none⟩ :=
  ⟨(c10_dev_zero ⟨1, 2, 3, none, none, some 0, some ['a', 'b', 'c']⟩ (by decide)
      rfl).2.2.2.2.1,
   (c10_dev_zero ⟨1, 2, 3, none, none, some 0, some ['a', 'b', 'c']⟩ (by decide)
      rfl).2.2.2.2.2.1,
   ((c10_dev_zero ⟨1, 2, 3, none, none, some 0, some ['a', 'b', 'c']⟩ (by decide)
      rfl).2.2.2.2.2.2.2 ⟨1, 2, 3, none, none, some 5, none⟩).1⟩

theorem getRevnoGo_cons (e : LogEntry) (rest : List LogEntry) (idx last : Nat) :
    getRevnoGo (e :: rest) idx last =
      if (parsedTags e).isEmpty then getRevnoGo rest (idx + 1) idx
      else
        match pyMax (parsedTags e) with
        | .error err => .error err
        | .ok m => .ok (m.release_string, idx) := rfl

theorem getRevnoGo_all_none (log : List LogEntry) :
    ∀ idx last, (∀ e ∈ log, parsedTags e = []) →
      getRevnoGo log idx last =
        .ok ([], if log.isEmpty then last else idx + log.length - 1) := by
  induction log with
  | nil => intro idx last _; simp [getRevnoGo]
  | cons e rest ih =>
    intro idx last h
    have he : parsedTags e = [] := h e (List.mem_cons_self e rest)
    have hrest := ih (idx + 1) idx fun x hx => h x (List.mem_cons_of_mem e hx)
    rw [getRevnoGo_cons, he]
    simp only [List.isEmpty_nil, if_true, hrest, List.isEmpty_cons, List.length_cons]
    cases rest with
    | nil => simp
    | cons y ys => simp; omega

theorem getRevnoGo_skip (before : List LogEntry) :
    ∀ (e : LogEntry) (after : List LogEntry) (idx last : Nat),
      (∀ x ∈ before, parsedTags x = []) →
      getRevnoGo (before ++ e :: after) idx last =
        getRevnoGo (e :: after) (idx + before.length) last := by
  induction before with
  | nil => intro e after idx last _; simp
  | cons b rest ih =>
    intro e after idx last h
    have hb : parsedTags b = [] := h b (List.mem_cons_self b rest)
    have hrest := ih e after (idx + 1) idx fun x hx => h x (List.mem_cons_of_mem b hx)
    rw [List.cons_append, getRevnoGo_cons, hb]
    simp only [List.isEmpty_nil, if_true, hrest]
    rw [getRevnoGo_cons, getRevnoGo_cons]
    have : idx + 1 + rest.length = idx + (rest.length + 1) := by omega
    simp [this]

/-- Claim C2, amended: scanning the oneline log newest-first, if no entry has
a parseable version tag the result is `("", N-1)` for a log of `N ≥ 1`
entries (and `("", 0)` for an empty log — uniformly `("", N-1)` in truncated
`Nat` subtraction), because the Python `enumerate` loop variable retains the
last index, not the count.  When some entry has a parseable tag, the result is
the release-string rendering of the `max` of the first such entry's parsed
tags, paired with that entry's index — the count of strictly newer commits. -/
theorem c2_revno_and_last_tag :
    (∀ log : List LogEntry, (∀ e ∈ log, parsedTags e = []) →
      get_revno_and_last_tag log = .ok ([], log.length - 1)) ∧
    (∀ (before : List LogEntry) (e : LogEntry) (after : List LogEntry)
        (mx : SemanticVersion),
      (∀ x ∈ before, parsedTags x = []) → parsedTags e ≠ [] →
      pyMax (parsedTags e) = .ok mx →
      get_revno_and_last_tag (before ++ e :: after) =
        .ok (mx.release_string, before.length)) := by
  constructor
  · intro log h
    unfold get_revno_and_last_tag
    rw [getRevnoGo_all_none log 0 0 h]
    cases log with
    | nil => simp
    | cons x xs => simp

  · intro before e after mx hskip hne hmx
    unfold get_revno_and_last_tag
    rw [getRevnoGo_skip before e after 0 0 hskip, getRevnoGo_cons]
    have hne' : (parsedTags e).isEmpty = false := by
      cases hpt : parsedTags e with
      | nil => exact absurd hpt hne
      | cons z zs => rfl
    rw [hne', if_neg (by simp), hmx]
    simp

/-- Claim C2 counterexample: a one-entry log whose only tag does not parse
returns `("", 0)`, not `("", 1)` (the total entry count) — the `enumerate`
loop variable holds the last index `N-1`, not `N`, after exhaustion. -/
theorem c2_counterexample :
    get_revno_and_last_tag [(['h'], [['f', 'o', 'o']], ['s'])] = .ok ([], 0) ∧
    [((['h'] : Str), [['f', 'o', 'o']], (['s'] : Str))].length = 1 :=
  ⟨rfl, rfl⟩

/-- Witness for C2: a two-entry log with no parseable tags yields `("", 1)`,
and a log whose second entry carries tags `1.0.0` and `1.0.0rc1` yields
`("1.0.0", 1)` — the maximum tag rendered, at distance 1. -/
theorem c2_revno_and_last_tag_witness :
    get_revno_and_last_tag
        [(['h', '1'], [['f', 'o', 'o']], ['s']), (['h', '2'], [['b', 'a', 'r']], ['s'])] =
      .ok ([], 1) ∧
    get_revno_and_last_tag
        [(['h', '1'], [], ['s']),
         (['h', '2'], ["1.0.0".toList, "1.0.0rc1".toList], ['s'])] =
      .ok ("1.0.0".toList, 1) :=
  ⟨c2_revno_and_last_tag.1 _ (by decide),
   c2_revno_and_last_tag.2 [(['h', '1'], [], ['s'])]
     (['h', '2'], ["1.0.0".toList, "1.0.0rc1".toList], ['s']) []
     ⟨1, 0, 0, none, none, none, none⟩ (by decide) (by decide) (by rfl)⟩

/-- Claim C1, amended: at tag distance 0 the computed version is the last
tagged version exactly (no dev suffix), and that is what is returned when no
explicit target is given or when the last version does not exceed the target;
but the explicit-target constraint check is NOT bypassed — it runs before the
distance-0 return, so a last tagged version greater than the explicit target
still raises the version-conflict error. -/
theorem c1_distance_zero_target_check (log : List LogEntry) (changelog : Str)
    (lastCommit : Str) (tag : Str) (ls : SemanticVersion)
    (hrev : get_revno_and_last_tag log = .ok (tag, 0))
    (hparse : from_pip_string (if tag.isEmpty then ['0'] else tag) = .ok ls) :
    calculate_target_version log changelog lastCommit none = .ok ls ∧
    (∀ t, SemanticVersion.pyGt ls t = .ok false →
      calculate_target_version log changelog lastCommit (some t) = .ok ls) ∧
    (∀ t, SemanticVersion.pyGt ls t = .ok true →
      calculate_target_version log changelog lastCommit (some t) =
        .error "git history requires a newer target version") := by
  unfold calculate_target_version
  rw [hrev]
  dsimp only
  rw [hparse]
  refine ⟨by simp, fun t ht => by simp [ht], fun t ht => by simp [ht]⟩

/-- Claim C1 counterexample: HEAD is tagged `2.0.0` (distance 0) and the
explicit target is `1.0.0`; the claim says no conflict error can be raised at
distance 0, but the code raises. -/
theorem c1_counterexample :
    get_revno_and_last_tag [(['h'], ["2.0.0".toList], ['s'])] =
      .ok ("2.0.0".toList, 0) ∧
    calculate_target_version [(['h'], ["2.0.0".toList], ['s'])] [] ['h']
        (some ⟨1, 0, 0, none, none, none, none⟩) =
      .error "git history requires a newer target version" :=
  ⟨rfl, rfl⟩

/-- Witness for C1: HEAD tagged `1.0.0`; with no target or target `2.0.0` the
result is exactly `1.0.0`, with target `0.5.0` the conflict error fires. -/
theorem c1_distance_zero_target_check_witness :
    calculate_target_version [(['h'], ["1.0.0".toList], ['s'])] [] ['h'] none =
      .ok ⟨1, 0, 0, none, none, none, none⟩ ∧
    calculate_target_version [(['h'], ["1.0.0".toList], ['s'])] [] ['h']
        (some ⟨2, 0, 0, none, none, none, none⟩) =
      .ok ⟨1, 0, 0, none, none, none, none⟩ ∧
    calculate_target_version [(['h'], ["1.0.0".toList], ['s'])] [] ['h']
        (some ⟨0, 5, 0, none, none, none, none⟩) =
      .error "git history requires a newer target version" :=
  ⟨(c1_distance_zero_target_check [(['h'], ["1.0.0".toList], ['s'])] [] ['h']
      "1.0.0".toList ⟨1, 0, 0, none, none, none, none⟩ rfl rfl).1,
    (c1_distance_zero_target_check [(['h'], ["1.0.0".toList], ['s'])] [] ['h']
      "1.0.0".toList ⟨1, 0, 0, none, none, none, none⟩ rfl rfl).2.1
      ⟨2, 0, 0, none, none, none, none⟩ rfl,
    (c1_distance_zero_target_check [(['h'], ["1.0.0".toList], ['s'])] [] ['h']
      "1.0.0".toList ⟨1, 0, 0, none, none, none, none⟩ rfl rfl).2.2
      ⟨0, 5, 0, none, none, none, none⟩ rfl⟩

/-- Claim C4, amended: `from_pip_string` fails for every version string with
zero digit-only dot-separated components — so a bare git hash containing a
letter (e.g. `12a4567`) is rejected — but the "exactly" direction fails both
ways: the all-numeric bare hash `1234567` is one digit-only component and
parses successfully as `1234567.0.0`, and some strings with digit components
(an unknown remainder such as `1.2.3.foo`) also raise. -/
theorem c4_zero_digit_components :
    (∀ s : Str, ((splitOnChar '.' s).filter pyIsDigit).length = 0 →
      isErr (from_pip_string s) = true) ∧
    from_pip_string "1234567".toList = .ok ⟨1234567, 0, 0, none, none, none, none⟩ ∧
    isErr (from_pip_string "1.2.3.foo".toList) = true := by
  refine ⟨fun s h => ?_, rfl, rfl⟩
  unfold from_pip_string fromPipComponents
  simp [h, isErr]

/-- Witness for C4 at the letter-containing bare hash `12a4567`. -/
theorem c4_zero_digit_components_witness :
    isErr (from_pip_string "12a4567".toList) = true :=
  c4_zero_digit_components.1 "12a4567".toList rfl

/-- Claim C4 counterexample: the all-numeric bare git hash `1234567` is NOT
rejected — it parses as version `1234567.0.0` — and `1.2.3.foo` has three
digit-only components yet still fails, refuting both the particular rejection
and the "exactly" characterisation. -/
theorem c4_counterexample :
    from_pip_string "1234567".toList = .ok ⟨1234567, 0, 0, none, none, none, none⟩ ∧
    ((splitOnChar '.' "1.2.3.foo".toList).filter pyIsDigit).length = 3 ∧
    isErr (from_pip_string "1.2.3.foo".toList) = true :=
  ⟨rfl, rfl, rfl⟩

theorem pyIsDigit_cons_false_head {c : Char} (hc : isDigitChar c = false) (l : Str) :
    pyIsDigit (c :: l) = false := by
  simp [pyIsDigit, hc]

theorem pyIsDigit_cons_false_snd {c d : Char} (hd : isDigitChar d = false) (l : Str) :
    pyIsDigit (c :: d :: l) = false := by
  simp [pyIsDigit, List.all_cons, hd]

theorem isAlpha_not_digit {c : Char} (h : isAlphaChar c = true) : isDigitChar c = false := by
  simp only [isAlphaChar, Bool.or_eq_true, Bool.and_eq_true, decide_eq_true_eq] at h
  simp only [isDigitChar, Bool.and_eq_false_iff]
  right
  simp only [decide_eq_false_iff_not]
  omega

theorem mem_alpha_ne_dot {t : Str} (ht : t.all isAlphaChar = true) {c : Char} (hc : c ∈ t) :
    c ≠ '.' := by
  rw [List.all_eq_true] at ht
  intro heq
  have := ht c hc
  rw [heq] at this
  cases this

theorem takeWhile_alpha_append {t : Str} (ht : t.all isAlphaChar = true) (u : Str) :
    (t ++ u).takeWhile isAlphaChar = t ++ u.takeWhile isAlphaChar := by
  induction t with
  | nil => simp
  | cons c rest ih =>
    rw [List.all_cons, Bool.and_eq_true] at ht
    simp [List.takeWhile_cons, ht.1, ih ht.2]

/-- Reduce `fromPipComponents` on a component list of exactly three digit
renderings followed by non-digit components. -/
theorem fromPipComponents_three (M m p : Nat) (rest : List Str)
    (hrest : ∀ r ∈ rest, pyIsDigit r = false) :
    fromPipComponents ([natChars M, natChars m, natChars p] ++ rest) =
      parseRemainder M m p rest := by
  have hfil : ([natChars M, natChars m, natChars p] ++ rest).filter pyIsDigit =
      [natChars M, natChars m, natChars p] := by
    rw [List.filter_append]
    have h1 : List.filter pyIsDigit [natChars M, natChars m, natChars p] =
        [natChars M, natChars m, natChars p] := by
      simp [List.filter, pyIsDigit_natChars]
    have h2 : rest.filter pyIsDigit = [] := by
      rw [List.filter_eq_nil_iff]
      intro a ha
      rw [hrest a ha]
      exact fun hh => by cases hh
    rw [h1, h2, List.append_nil]
  unfold fromPipComponents
  rw [hfil]
  simp [charsToNat_natChars, pyIntNat_natChars]

theorem make_pre_eq (M m p r : Nat) (t : Str) (ht : t ≠ []) :
    SemanticVersion.make M m p (some t) (some r) none none =
      .ok ⟨M, m, p, some t, some r, none, none⟩ := by
  have htt : truthyStr (some t) = true := by
    simp [truthyStr, List.isEmpty_iff, ht]
  by_cases hr : r = 0 <;>
    simp [SemanticVersion.make, SemanticVersion.mkFields, htt, truthyOptNat, hr]

theorem parseRemainder_nil (M m p : Nat) :
    parseRemainder M m p [] = .ok ⟨M, m, p, none, none, none, none⟩ := rfl

theorem parse_type_pre (r : Nat) (t : Str) (ht : t ≠ [])
    (hta : t.all isAlphaChar = true) :
    parse_type ('0' :: (t ++ natChars r)) = .ok (t, r) := by
  obtain ⟨c, t', rfl⟩ : ∃ c t', t = c :: t' := by
    cases t with
    | nil => exact absurd rfl ht
    | cons c t' => exact ⟨c, t', rfl⟩
  have hca : isAlphaChar c = true := by
    rw [List.all_cons, Bool.and_eq_true] at hta
    exact hta.1
  have hcd : isDigitChar c = false := isAlpha_not_digit hca
  unfold parse_type
  simp only [List.cons_append, List.dropWhile_cons, hcd]
  simp only [show isDigitChar '0' = true from rfl, if_true, Bool.false_eq_true, if_false]
  rw [show ((c :: (t' ++ natChars r)) : Str) = (c :: t') ++ natChars r by simp,
    takeWhile_alpha_append hta, natChars_takeWhile_alpha, List.append_nil,
    List.drop_left, pyIntNat_natChars]

theorem parseRemainder_pre (M m p r : Nat) (t : Str) (ht : t ≠ [])
    (hta : t.all isAlphaChar = true) :
    parseRemainder M m p ['0' :: (t ++ natChars r)] =
      .ok ⟨M, m, p, some t, some r, none, none⟩ := by
  have hnd : pyIsDigit ('0' :: (t ++ natChars r)) = false := by
    obtain ⟨c, t', rfl⟩ : ∃ c t', t = c :: t' := by
      cases t with
      | nil => exact absurd rfl ht
      | cons c t' => exact ⟨c, t', rfl⟩
    have hca : isAlphaChar c = true := by
      rw [List.all_cons, Bool.and_eq_true] at hta
      exact hta.1
    rw [List.cons_append]
    exact pyIsDigit_cons_false_snd (isAlpha_not_digit hca) _
  unfold parseRemainder
  simp only [pyIntNat, hnd, if_false, Bool.false_eq_true, ite_false]
  rw [if_pos (by simp), parse_type_pre r t ht hta]
  exact make_pre_eq M m p r t ht

theorem pyIsDigit_pre_false (r : Nat) (t : Str) (ht : t ≠ [])
    (hta : t.all isAlphaChar = true) :
    pyIsDigit ('0' :: (t ++ natChars r)) = false := by
  obtain ⟨c, t', rfl⟩ : ∃ c t', t = c :: t' := by
    cases t with
    | nil => exact absurd rfl ht
    | cons c t' => exact ⟨c, t', rfl⟩
  have hca : isAlphaChar c = true := by
    rw [List.all_cons, Bool.and_eq_true] at hta
    exact hta.1
  rw [List.cons_append]
  exact pyIsDigit_cons_false_snd (isAlpha_not_digit hca) _

theorem parseDevHash_dev (M m p d : Nat) (rest : List Str) :
    parseDevHash M m p none none (('d' :: 'e' :: 'v' :: natChars d) :: rest) =
      (match (if 1 < (('d' :: 'e' :: 'v' :: natChars d) :: rest).length then
          some (((('d' :: 'e' :: 'v' :: natChars d) :: rest).getD 1 []).drop 1)
        else none) with
       | gh => SemanticVersion.make M m p none none (some d) gh) := by
  unfold parseDevHash
  dsimp only
  have hsw : startswith ('d' :: 'e' :: 'v' :: natChars d) ['d', 'e', 'v'] = true := by
    simp [startswith]
  rw [hsw]
  simp only [if_true, List.drop_succ_cons, List.drop_zero, pyIntNat_natChars]

theorem parseRemainder_dev (M m p d : Nat) :
    parseRemainder M m p ['d' :: 'e' :: 'v' :: natChars d] =
      .ok ⟨M, m, p, none, none, some d, none⟩ := by
  have hnd : pyIsDigit ('d' :: 'e' :: 'v' :: natChars d) = false :=
    pyIsDigit_cons_false_head (by decide) _
  unfold parseRemainder
  simp only [pyIntNat, hnd, Bool.false_eq_true, if_false, ite_false]
  rw [if_neg (by simp)]
  rw [parseDevHash_dev]
  simp [SemanticVersion.make, SemanticVersion.mkFields, truthyStr]

theorem parseRemainder_dev_hash (M m p d : Nat) (h : Str) :
    parseRemainder M m p ['d' :: 'e' :: 'v' :: natChars d, 'g' :: h] =
      .ok ⟨M, m, p, none, none, some d, some h⟩ := by
  have hnd : pyIsDigit ('d' :: 'e' :: 'v' :: natChars d) = false :=
    pyIsDigit_cons_false_head (by decide) _
  unfold parseRemainder
  simp only [pyIntNat, hnd, Bool.false_eq_true, if_false, ite_false]
  rw [if_neg (by simp)]
  rw [parseDevHash_dev]
  simp [SemanticVersion.make, SemanticVersion.mkFields, truthyStr]

theorem release_string_plain (M m p : Nat) :
    SemanticVersion.release_string ⟨M, m, p, none, none, none, none⟩ =
      natChars M ++ '.' :: (natChars m ++ '.' :: natChars p) := by
  simp [SemanticVersion.release_string, SemanticVersion.long_version,
    SemanticVersion.brief_string, truthyStr, truthyOptNat]

theorem release_string_pre (M m p r : Nat) (t : Str) (ht : t ≠ []) :
    SemanticVersion.release_string ⟨M, m, p, some t, some r, none, none⟩ =
      natChars M ++ '.' :: (natChars m ++ '.' :: (natChars p ++
        '.' :: ('0' :: (t ++ natChars r)))) := by
  have htt : truthyStr (some t) = true := by
    cases t with
    | nil => exact absurd rfl ht
    | cons c t' => rfl
  simp [SemanticVersion.release_string, SemanticVersion.long_version,
    SemanticVersion.brief_string, SemanticVersion.optNatStr, htt, truthyOptNat]

theorem release_string_dev (M m p d : Nat) (hd : d ≠ 0) :
    SemanticVersion.release_string ⟨M, m, p, none, none, some d, none⟩ =
      natChars M ++ '.' :: (natChars m ++ '.' :: (natChars p ++
        '.' :: ('d' :: 'e' :: 'v' :: natChars d))) := by
  have hdt : truthyOptNat (some d) = true := by simp [truthyOptNat, hd]
  simp [SemanticVersion.release_string, SemanticVersion.long_version,
    SemanticVersion.brief_string, truthyStr, hdt]

theorem release_string_dev_hash (M m p d : Nat) (hd : d ≠ 0) (h : Str) (hh : h ≠ []) :
    SemanticVersion.release_string ⟨M, m, p, none, none, some d, some h⟩ =
      natChars M ++ '.' :: (natChars m ++ '.' :: (natChars p ++
        '.' :: (('d' :: 'e' :: 'v' :: natChars d) ++ '.' :: ('g' :: h)))) := by
  have hdt : truthyOptNat (some d) = true := by simp [truthyOptNat, hd]
  have htt : truthyStr (some h) = true := by
    cases h with
    | nil => exact absurd rfl hh
    | cons c h' => rfl
  simp [SemanticVersion.release_string, SemanticVersion.long_version,
    SemanticVersion.brief_string, truthyStr, hdt, htt, hh]

theorem splitOnChar_release3 (aM am ap : Str)
    (h1 : ∀ c ∈ aM, c ≠ '.') (h2 : ∀ c ∈ am, c ≠ '.') (h3 : ∀ c ∈ ap, c ≠ '.') :
    splitOnChar '.' (aM ++ '.' :: (am ++ '.' :: ap)) = [aM, am, ap] := by
  rw [splitOnChar_append_sep _ _ _ h1, splitOnChar_append_sep _ _ _ h2,
    splitOnChar_no_sep _ _ h3]

theorem splitOnChar_release4 (aM am ap rest : Str)
    (h1 : ∀ c ∈ aM, c ≠ '.') (h2 : ∀ c ∈ am, c ≠ '.') (h3 : ∀ c ∈ ap, c ≠ '.')
    (h4 : ∀ c ∈ rest, c ≠ '.') :
    splitOnChar '.' (aM ++ '.' :: (am ++ '.' :: (ap ++ '.' :: rest))) =
      [aM, am, ap, rest] := by
  rw [splitOnChar_append_sep _ _ _ h1, splitOnChar_append_sep _ _ _ h2,
    splitOnChar_append_sep _ _ _ h3, splitOnChar_no_sep _ _ h4]

theorem splitOnChar_release5 (aM am ap r4 r5 : Str)
    (h1 : ∀ c ∈ aM, c ≠ '.') (h2 : ∀ c ∈ am, c ≠ '.') (h3 : ∀ c ∈ ap, c ≠ '.')
    (h4 : ∀ c ∈ r4, c ≠ '.') (h5 : ∀ c ∈ r5, c ≠ '.') :
    splitOnChar '.' (aM ++ '.' :: (am ++ '.' :: (ap ++ '.' :: (r4 ++ '.' :: r5)))) =
      [aM, am, ap, r4, r5] := by
  rw [splitOnChar_append_sep _ _ _ h1, splitOnChar_append_sep _ _ _ h2,
    splitOnChar_append_sep _ _ _ h3, splitOnChar_append_sep _ _ _ h4,
    splitOnChar_no_sep _ _ h5]

/-- Claim C6: for every version of a shape the release-string renderer
produces — plain release, prerelease, or positive dev count with an optional
non-empty dot-free git hash — parsing the rendered release string gives back a
structurally equal version.  The round trip is stated for the release-string
dialect only (debian/rpm are lossy by design). -/
theorem c6_release_roundtrip (v : SemanticVersion) (hrf : RenderableForm v) :
    from_pip_string v.release_string = .ok v := by
  obtain ⟨M, m, p, pt, pr, dev, gh⟩ := v
  have hM : ∀ c ∈ natChars M, c ≠ '.' := fun c hc => mem_natChars_ne hc '.' (by decide)
  have hm : ∀ c ∈ natChars m, c ≠ '.' := fun c hc => mem_natChars_ne hc '.' (by decide)
  have hp : ∀ c ∈ natChars p, c ≠ '.' := fun c hc => mem_natChars_ne hc '.' (by decide)
  rcases hrf with ⟨h1, h2, h3, h4⟩ | ⟨hpt, ⟨r, hpr⟩, hdev, hgh⟩ |
    ⟨hpt, hpr, ⟨d, hdev, hd0⟩, hgh⟩
  · dsimp only at h1 h2 h3 h4
    subst h1; subst h2; subst h3; subst h4
    unfold from_pip_string
    rw [release_string_plain, splitOnChar_release3 _ _ _ hM hm hp]
    have h0 := fromPipComponents_three M m p [] (fun x hx => absurd hx (List.not_mem_nil x))
    rw [List.append_nil] at h0
    rw [h0, parseRemainder_nil]
  · obtain ⟨t, hpteq, htne, hta⟩ : ∃ t, pt = some t ∧ t ≠ [] ∧ t.all isAlphaChar = true := by
      rcases hpt with h | h | h <;> (dsimp only at h; exact ⟨_, h, by decide, by decide⟩)
    dsimp only at hpr hdev hgh
    subst hpteq; subst hpr; subst hdev; subst hgh
    have hlast : ∀ c ∈ ('0' :: (t ++ natChars r) : Str), c ≠ '.' := by
      intro c hc
      rcases List.mem_cons.mp hc with hc0 | hc'
      · rw [hc0]; decide
      · rcases List.mem_append.mp hc' with hct | hcr
        · exact mem_alpha_ne_dot hta hct
        · exact mem_natChars_ne hcr '.' (by decide)
    unfold from_pip_string
    rw [release_string_pre M m p r t htne, splitOnChar_release4 _ _ _ _ hM hm hp hlast]
    rw [show ([natChars M, natChars m, natChars p, '0' :: (t ++ natChars r)] : List Str) =
      [natChars M, natChars m, natChars p] ++ ['0' :: (t ++ natChars r)] from rfl]
    rw [fromPipComponents_three M m p _ ?hrest]
    case hrest =>
      intro x hx
      rw [List.mem_singleton] at hx
      rw [hx]
      exact pyIsDigit_pre_false r t htne hta
    exact parseRemainder_pre M m p r t htne hta
  · dsimp only at hpt hpr hdev
    subst hpt; subst hpr; subst hdev
    have hdevcomp : ∀ c ∈ ('d' :: 'e' :: 'v' :: natChars d : Str), c ≠ '.' := by
      intro c hc
      rcases List.mem_cons.mp hc with hc0 | hc'
      · rw [hc0]; decide
      · rcases List.mem_cons.mp hc' with hc0 | hc'' 
        · rw [hc0]; decide
        · rcases List.mem_cons.mp hc'' with hc0 | hcr
          · rw [hc0]; decide
          · exact mem_natChars_ne hcr '.' (by decide)
    rcases hgh with hgh | ⟨h, hgheq, hhne, hhdot⟩
    · dsimp only at hgh
      subst hgh
      unfold from_pip_string
      rw [release_string_dev M m p d hd0, splitOnChar_release4 _ _ _ _ hM hm hp hdevcomp]
      rw [show ([natChars M, natChars m, natChars p,
          'd' :: 'e' :: 'v' :: natChars d] : List Str) =
        [natChars M, natChars m, natChars p] ++ ['d' :: 'e' :: 'v' :: natChars d] from rfl]
      rw [fromPipComponents_three M m p _ ?hrestd]
      case hrestd =>
        intro x hx
        rw [List.mem_singleton] at hx
        rw [hx]
        exact pyIsDigit_cons_false_head (by decide) _
      exact parseRemainder_dev M m p d
    · dsimp only at hgheq
      subst hgheq
      have hgcomp : ∀ c ∈ ('g' :: h : Str), c ≠ '.' := by
        intro c hc
        rcases List.mem_cons.mp hc with hc0 | hc'
        · rw [hc0]; decide
        · exact hhdot c hc'
      unfold from_pip_string
      rw [release_string_dev_hash M m p d hd0 h hhne,
        splitOnChar_release5 _ _ _ _ _ hM hm hp hdevcomp hgcomp]
      rw [show ([natChars M, natChars m, natChars p, 'd' :: 'e' :: 'v' :: natChars d,
          'g' :: h] : List Str) =
        [natChars M, natChars m, natChars p] ++
          ['d' :: 'e' :: 'v' :: natChars d, 'g' :: h] from rfl]
      rw [fromPipComponents_three M m p _ ?hrestdh]
      case hrestdh =>
        intro x hx
        rcases List.mem_cons.mp hx with hx0 | hx'
        · rw [hx0]
          exact pyIsDigit_cons_false_head (by decide) _
        · rw [List.mem_singleton] at hx'
          rw [hx']
          exact pyIsDigit_cons_false_head (by decide) _
      exact parseRemainder_dev_hash M m p d h

/-- Witness for C6 at the prerelease `1.2.3.0rc2` and the dev build
`0.10.1.dev3.g83bef74`. -/
theorem c6_release_roundtrip_witness :
    from_pip_string
        (SemanticVersion.release_string ⟨1, 2, 3, some ['r', 'c'], some 2, none, none⟩) =
      .ok ⟨1, 2, 3, some ['r', 'c'], some 2, none, none⟩ ∧
    from_pip_string
        (SemanticVersion.release_string
          ⟨0, 10, 1, none, none, some 3, some "83bef74".toList⟩) =
      .ok ⟨0, 10, 1, none, none, some 3, some "83bef74".toList⟩ :=
  ⟨c6_release_roundtrip _ (Or.inr (Or.inl ⟨Or.inr (Or.inr rfl), ⟨2, rfl⟩, rfl, rfl⟩)),
   c6_release_roundtrip _
     (Or.inr (Or.inr ⟨rfl, rfl, ⟨3, rfl, by decide⟩,
       Or.inr ⟨"83bef74".toList, rfl, by decide, by decide⟩⟩))⟩
